import Mathlib

/-!
# Verification of the UART transport layer and command console

This file formalises the core of the ECE3411 lab repository: the fixed-capacity
circular byte queue (`circular_buffer_t` in `src/labs/lab5/main.c` and the
`buffer_put`/`buffer_get` wrappers in `src/labs/adcsingle/include/uart.c`),
the interrupt-driven UART transport built on it, the line assembler and command
dispatcher of `src/labs/AOS/include/ui.c`, and the interactive menu state
machine of `src/labs/uart2/main.c`.

Bytes are modelled as `Nat` (the C code stores `char`/`uint8_t`; every value
written by the modelled code paths is in `0..255`).  The backing array of a
queue is a `List Nat` whose length is the capacity.  The file `circularbuff.c`
implementing `circular_buf_try_put`/`circular_buf_get`/`circular_buf_full`/
`circular_buf_empty`/`circular_buf_size` is not part of the repository snapshot
(only its header users are); those five operations are modelled from the spec,
which describes exactly the `head`/`tail`/`count` circular queue that
`src/labs/lab5/main.c` implements inline, so one queue model serves both.
-/

namespace ECE3411

set_option maxRecDepth 100000

/-- Circular byte queue state, mirroring `circular_buffer_t` from
`src/labs/lab5/main.c` (a backing array `buffer[BUFFER_SIZE]` together with
`head` = next write index, `tail` = next read index, and `count` = number of
occupied slots). -/
structure circular_buffer_t where
  buffer : List Nat
  head : Nat
  tail : Nat
  count : Nat
deriving DecidableEq

/-- `BUFFER_SIZE` from `src/labs/lab5/main.c` (= `UART_BUFFER_SIZE` from
`src/labs/uart_interrupt/include/uart.h`). -/
def BUFFER_SIZE : Nat := 64

/-- `CMD_BUFFER_SIZE` from `src/labs/AOS/include/ui.c`. -/
def CMD_BUFFER_SIZE : Nat := 128

/-- `MAX_CMD_LENGTH` from `src/labs/AOS/include/ui.c`. -/
def MAX_CMD_LENGTH : Nat := 64

/-- The statically zero-initialised queue (`tx_buffer = {0}` in
`src/labs/lab5/main.c`, `circular_buf_init` over a static array in
`src/labs/adcsingle/include/uart.c`). -/
def buf_init (N : Nat) : circular_buffer_t :=
  { buffer := List.replicate N 0, head := 0, tail := 0, count := 0 }

/-- `buffer_put` from `src/labs/lab5/main.c`: guarded by `count < BUFFER_SIZE`,
it writes at `head`, advances `head = (head + 1) % BUFFER_SIZE` and increments
`count`.  The C function in lab5 returns `void`; the returned `Bool` records
whether the guard held, which is exactly the `bool` returned by the
`buffer_put` wrapper of `src/labs/adcsingle/include/uart.c`
(`circular_buf_try_put(buf, data) == 0`, and the spec's `try_put` fails
precisely on a full queue). -/
def buffer_put (N : Nat) (q : circular_buffer_t) (data : Nat) :
    circular_buffer_t × Bool :=
  if q.count < N then
    ({ buffer := q.buffer.set q.head data,
       head := (q.head + 1) % N,
       tail := q.tail,
       count := q.count + 1 }, true)
  else (q, false)

/-- `buffer_get` from `src/labs/lab5/main.c`: guarded by `count > 0`, it reads
at `tail`, advances `tail = (tail + 1) % BUFFER_SIZE`, decrements `count` and
returns `true`; on an empty queue it returns `false` without mutation.  The
out-parameter plus `bool` is modelled as an `Option`. -/
def buffer_get (N : Nat) (q : circular_buffer_t) :
    circular_buffer_t × Option Nat :=
  if 0 < q.count then
    ({ buffer := q.buffer,
       head := q.head,
       tail := (q.tail + 1) % N,
       count := q.count - 1 }, some (q.buffer.getD q.tail 0))
  else (q, none)

/-- The queue invariant: the backing array has exactly `N` slots, both indices
are in range, at most `N` slots are occupied, and the write index is the read
index advanced by the occupancy (true of the zero-initialised state and
preserved by `buffer_put`/`buffer_get`). -/
def buf_inv (N : Nat) (q : circular_buffer_t) : Prop :=
  q.buffer.length = N ∧ q.head < N ∧ q.tail < N ∧ q.count ≤ N ∧
    q.head = (q.tail + q.count) % N

instance (N : Nat) (q : circular_buffer_t) : Decidable (buf_inv N q) := by
  unfold buf_inv; infer_instance

/-- The sequence of bytes currently stored in the queue, oldest first: slot
`(tail + i) % N` for `i < count`. -/
def contents (N : Nat) (q : circular_buffer_t) : List Nat :=
  (List.range q.count).map (fun i => q.buffer.getD ((q.tail + i) % N) 0)

theorem buf_inv_init (N : Nat) (hN : 0 < N) : buf_inv N (buf_init N) := by
  refine ⟨List.length_replicate _ _, hN, hN, Nat.zero_le _, ?_⟩
  simp [buf_init, Nat.mod_eq_of_lt hN]

theorem contents_init (N : Nat) : contents N (buf_init N) = [] := by
  simp [contents, buf_init]

theorem contents_length (N : Nat) (q : circular_buffer_t) :
    (contents N q).length = q.count := by
  simp [contents]

theorem buffer_put_inv (N : Nat) (q : circular_buffer_t) (b : Nat)
    (h : buf_inv N q) : buf_inv N (buffer_put N q b).1 := by
  obtain ⟨hlen, hh, ht, hc, hhead⟩ := h
  have hN : 0 < N := Nat.lt_of_le_of_lt (Nat.zero_le _) hh
  by_cases hfull : q.count < N
  · simp only [buffer_put, if_pos hfull]
    refine ⟨by simpa using hlen, Nat.mod_lt _ hN, ht, hfull, ?_⟩
    show (q.head + 1) % N = (q.tail + (q.count + 1)) % N
    rw [hhead]
    exact Nat.mod_add_mod _ _ _
  · simp only [buffer_put, if_neg hfull]
    exact ⟨hlen, hh, ht, hc, hhead⟩

theorem buffer_get_inv (N : Nat) (q : circular_buffer_t)
    (h : buf_inv N q) : buf_inv N (buffer_get N q).1 := by
  obtain ⟨hlen, hh, ht, hc, hhead⟩ := h
  have hN : 0 < N := Nat.lt_of_le_of_lt (Nat.zero_le _) hh
  by_cases hne : 0 < q.count
  · simp only [buffer_get, if_pos hne]
    refine ⟨hlen, hh, Nat.mod_lt _ hN, Nat.le_trans (Nat.sub_le _ _) hc, ?_⟩
    show q.head = ((q.tail + 1) % N + (q.count - 1)) % N
    rw [Nat.mod_add_mod, hhead]
    congr 1
    omega
  · simp only [buffer_get, if_neg hne]
    exact ⟨hlen, hh, ht, hc, hhead⟩

/-- Helper: distinct logical positions occupy distinct physical slots. -/
theorem slot_ne_of_lt {N t i c : Nat} (hi : i < c) (hcN : c < N) :
    (t + i) % N ≠ (t + c) % N := by
  intro heq
  have h2 : i % N = c % N := Nat.ModEq.add_left_cancel' t heq
  rw [Nat.mod_eq_of_lt (Nat.lt_trans hi hcN), Nat.mod_eq_of_lt hcN] at h2
  exact Nat.ne_of_lt hi h2

theorem contents_put (N : Nat) (q : circular_buffer_t) (b : Nat)
    (h : buf_inv N q) (hfull : q.count < N) :
    contents N (buffer_put N q b).1 = contents N q ++ [b] := by
  obtain ⟨hlen, hh, ht, hc, hhead⟩ := h
  unfold buffer_put contents
  rw [if_pos hfull]
  simp only [List.range_succ, List.map_append, List.map_cons, List.map_nil]
  congr 1
  · apply List.map_congr_left
    intro i hi
    have hi' : i < q.count := List.mem_range.mp hi
    have hne : (q.tail + i) % N ≠ q.head := by
      rw [hhead]; exact slot_ne_of_lt hi' hfull
    rw [List.getD_eq_getElem?_getD, List.getElem?_set_ne (Ne.symm hne),
      ← List.getD_eq_getElem?_getD]
  · have hslot : (q.tail + q.count) % N = q.head := hhead.symm
    rw [hslot, List.getD_eq_getElem?_getD, List.getElem?_set_self
      (by rw [hlen]; exact hh)]
    simp

theorem buffer_get_spec (N : Nat) (q : circular_buffer_t) (h : buf_inv N q) :
    (buffer_get N q).2 = (contents N q).head? ∧
      contents N (buffer_get N q).1 = (contents N q).tail := by
  obtain ⟨hlen, hh, ht, hc, hhead⟩ := h
  unfold buffer_get
  by_cases hne : 0 < q.count
  · rw [if_pos hne]
    obtain ⟨c, hcq⟩ := Nat.exists_eq_add_of_lt hne
    rw [Nat.zero_add] at hcq
    constructor
    · show some (q.buffer.getD q.tail 0) = (contents N q).head?
      unfold contents
      rw [hcq, List.range_succ_eq_map]
      simp only [List.map_cons, List.head?_cons]
      rw [Nat.add_zero, Nat.mod_eq_of_lt ht]
    · show contents N _ = (contents N q).tail
      unfold contents
      simp only
      rw [hcq]
      rw [List.range_succ_eq_map]
      simp only [List.map_cons, List.tail_cons, Nat.add_sub_cancel,
        List.map_map]
      apply List.map_congr_left
      intro i _
      simp only [Function.comp_apply]
      rw [Nat.mod_add_mod]
      congr 2
      omega
  · rw [if_neg hne]
    have hz : q.count = 0 := Nat.eq_zero_of_not_pos hne
    constructor
    · show (none : Option Nat) = (contents N q).head?
      unfold contents
      rw [hz]
      simp
    · show contents N q = (contents N q).tail
      unfold contents
      rw [hz]
      simp

/-- One call in a `try_put`/`get` call sequence, lab5's `buffer_put(&buf, b)`
or `buffer_get(&buf, &out)`. -/
inductive QOp where
  | put (b : Nat)
  | get
deriving DecidableEq

/-- Run a sequence of queue calls, counting the successful puts and the
successful gets. -/
def runOps (N : Nat) (q : circular_buffer_t) :
    List QOp → circular_buffer_t × Nat × Nat
  | [] => (q, 0, 0)
  | QOp.put b :: rest =>
    ((runOps N (buffer_put N q b).1 rest).1,
      (if (buffer_put N q b).2 then 1 else 0) +
        (runOps N (buffer_put N q b).1 rest).2.1,
      (runOps N (buffer_put N q b).1 rest).2.2)
  | QOp.get :: rest =>
    ((runOps N (buffer_get N q).1 rest).1,
      (runOps N (buffer_get N q).1 rest).2.1,
      (if (buffer_get N q).2.isSome then 1 else 0) +
        (runOps N (buffer_get N q).1 rest).2.2)

theorem runOps_spec (N : Nat) (q : circular_buffer_t) (h : buf_inv N q)
    (ops : List QOp) :
    buf_inv N (runOps N q ops).1 ∧
      (runOps N q ops).1.count + (runOps N q ops).2.2 =
        q.count + (runOps N q ops).2.1 := by
  induction ops generalizing q with
  | nil => exact ⟨h, rfl⟩
  | cons op rest ih =>
    cases op with
    | put b =>
      have hinv1 := buffer_put_inv N q b h
      obtain ⟨hf, he⟩ := ih (buffer_put N q b).1 hinv1
      refine ⟨hf, ?_⟩
      simp only [runOps]
      by_cases hc : q.count < N
      · simp [buffer_put, hc] at he ⊢
        omega
      · simp [buffer_put, hc] at he ⊢
        omega
    | get =>
      have hinv1 := buffer_get_inv N q h
      obtain ⟨hf, he⟩ := ih (buffer_get N q).1 hinv1
      refine ⟨hf, ?_⟩
      simp only [runOps]
      by_cases hc : 0 < q.count
      · simp [buffer_get, hc] at he ⊢
        omega
      · simp [buffer_get, hc] at he ⊢
        omega

/-- C1.  Over every sequence of `try_put`/`get` calls starting from the
zero-initialised queue, the occupancy `count` (what `size()` reports) equals
the number of successful puts minus the number of successful gets and never
exceeds the capacity `N`, and after the sequence the state invariant
`count ≤ N`, `head < N`, `tail < N` holds (the sequence being universally
quantified, this covers every intermediate state as well). -/
theorem lab5_queue_size_and_invariant (N : Nat) (hN : 0 < N)
    (ops : List QOp) :
    (runOps N (buf_init N) ops).1.count =
        (runOps N (buf_init N) ops).2.1 - (runOps N (buf_init N) ops).2.2 ∧
      (runOps N (buf_init N) ops).2.2 ≤ (runOps N (buf_init N) ops).2.1 ∧
      (runOps N (buf_init N) ops).1.count ≤ N ∧
      (runOps N (buf_init N) ops).1.head < N ∧
      (runOps N (buf_init N) ops).1.tail < N := by
  obtain ⟨⟨_, hh, ht, hc, _⟩, he⟩ :=
    runOps_spec N (buf_init N) (buf_inv_init N hN) ops
  rw [show (buf_init N).count = 0 from rfl, Nat.zero_add] at he
  refine ⟨by omega, by omega, hc, hh, ht⟩

/-- Witness for C1 at a concrete run: `N = 64`,
ops = put 7, put 9, get, put 5, get, get, get. -/
theorem lab5_queue_size_and_invariant_witness :
    0 < 64 ∧
      ((runOps 64 (buf_init 64)
          [QOp.put 7, QOp.put 9, QOp.get, QOp.put 5, QOp.get, QOp.get,
            QOp.get]).1.count =
        (runOps 64 (buf_init 64)
          [QOp.put 7, QOp.put 9, QOp.get, QOp.put 5, QOp.get, QOp.get,
            QOp.get]).2.1 -
        (runOps 64 (buf_init 64)
          [QOp.put 7, QOp.put 9, QOp.get, QOp.put 5, QOp.get, QOp.get,
            QOp.get]).2.2 ∧
      (runOps 64 (buf_init 64)
          [QOp.put 7, QOp.put 9, QOp.get, QOp.put 5, QOp.get, QOp.get,
            QOp.get]).2.2 ≤
        (runOps 64 (buf_init 64)
          [QOp.put 7, QOp.put 9, QOp.get, QOp.put 5, QOp.get, QOp.get,
            QOp.get]).2.1 ∧
      (runOps 64 (buf_init 64)
          [QOp.put 7, QOp.put 9, QOp.get, QOp.put 5, QOp.get, QOp.get,
            QOp.get]).1.count ≤ 64 ∧
      (runOps 64 (buf_init 64)
          [QOp.put 7, QOp.put 9, QOp.get, QOp.put 5, QOp.get, QOp.get,
            QOp.get]).1.head < 64 ∧
      (runOps 64 (buf_init 64)
          [QOp.put 7, QOp.put 9, QOp.get, QOp.put 5, QOp.get, QOp.get,
            QOp.get]).1.tail < 64) :=
  ⟨by decide,
    lab5_queue_size_and_invariant 64 (by decide)
      [QOp.put 7, QOp.put 9, QOp.get, QOp.put 5, QOp.get, QOp.get, QOp.get]⟩

/-- C2.  On a queue satisfying the occupancy bound, `buffer_put` fails
(returns `false`) exactly when `count = N`, and a failing put leaves the whole
state (storage, `head`, `tail`, `count`, hence `size()`) unchanged;
`buffer_get` fails (returns no byte) exactly when `count = 0`, and a failing
get leaves the whole state unchanged.  The two iffs show these are the only
failing inputs. -/
theorem lab5_queue_fail_cases (N : Nat) (q : circular_buffer_t) (b : Nat)
    (hc : q.count ≤ N) :
    ((buffer_put N q b).2 = false ↔ q.count = N) ∧
      ((buffer_put N q b).2 = false → (buffer_put N q b).1 = q) ∧
      ((buffer_get N q).2 = none ↔ q.count = 0) ∧
      ((buffer_get N q).2 = none → (buffer_get N q).1 = q) := by
  unfold buffer_put buffer_get
  by_cases hp : q.count < N
  · by_cases hg : 0 < q.count
    · simp only [if_pos hp, if_pos hg]
      refine ⟨by simp; omega, by simp, by simp; omega, by simp⟩
    · simp only [if_pos hp, if_neg hg]
      refine ⟨by simp; omega, by simp, by simp; omega, by simp⟩
  · by_cases hg : 0 < q.count
    · simp only [if_neg hp, if_pos hg]
      refine ⟨by simp; omega, by simp, by simp; omega, by simp⟩
    · simp only [if_neg hp, if_neg hg]
      refine ⟨by simp; omega, by simp, by simp; omega, by simp⟩

/-- Witness for C2 at a concrete full 64-slot queue and at the empty queue. -/
theorem lab5_queue_fail_cases_witness :
    ((⟨List.replicate 64 5, 0, 0, 64⟩ : circular_buffer_t).count ≤ 64 ∧
      ((buffer_put 64 ⟨List.replicate 64 5, 0, 0, 64⟩ 7).2 = false ↔
        (⟨List.replicate 64 5, 0, 0, 64⟩ : circular_buffer_t).count = 64) ∧
      ((buffer_put 64 ⟨List.replicate 64 5, 0, 0, 64⟩ 7).2 = false →
        (buffer_put 64 ⟨List.replicate 64 5, 0, 0, 64⟩ 7).1 =
          ⟨List.replicate 64 5, 0, 0, 64⟩) ∧
      ((buffer_get 64 (⟨List.replicate 64 5, 0, 0, 64⟩ :
            circular_buffer_t)).2 = none ↔
        (⟨List.replicate 64 5, 0, 0, 64⟩ : circular_buffer_t).count = 0) ∧
      ((buffer_get 64 (⟨List.replicate 64 5, 0, 0, 64⟩ :
            circular_buffer_t)).2 = none →
        (buffer_get 64 (⟨List.replicate 64 5, 0, 0, 64⟩ :
            circular_buffer_t)).1 = ⟨List.replicate 64 5, 0, 0, 64⟩)) ∧
      (buf_init 64).count ≤ 64 ∧
      ((buffer_get 64 (buf_init 64)).2 = none ↔ (buf_init 64).count = 0) :=
  ⟨⟨by decide,
    lab5_queue_fail_cases 64 ⟨List.replicate 64 5, 0, 0, 64⟩ 7 (by decide)⟩,
    by decide,
    (lab5_queue_fail_cases 64 (buf_init 64) 7 (by decide)).2.2.1⟩

/-! ## Transport (`src/labs/adcsingle/include/uart.c` + the DRE interrupt
vector of `src/labs/uart2/main.c` / `src/labs/adcsingle` ISRs) -/

/-- Transport state: the outbound (`tx`) queue plus the `USART_DREIE_bm` bit
of `CTRLA` (whether the data-register-empty interrupt source is armed). -/
structure uart_state where
  tx : circular_buffer_t
  dreie : Bool
deriving DecidableEq

/-- `uart_send_char` from `src/labs/adcsingle/include/uart.c`: try to enqueue
on the tx queue; on success set `CTRLA |= USART_DREIE_bm` (arm the outbound
interrupt; arming an armed source is the same `|=`, a no-op). -/
def uart_send_char (s : uart_state) (c : Nat) : uart_state × Bool :=
  ({ tx := (buffer_put BUFFER_SIZE s.tx c).1,
     dreie := if (buffer_put BUFFER_SIZE s.tx c).2 then true else s.dreie },
    (buffer_put BUFFER_SIZE s.tx c).2)

/-- `uart_send_string` from `src/labs/adcsingle/include/uart.c`: send
characters until the first failure, returning how many were queued. -/
def uart_send_string (s : uart_state) : List Nat → uart_state × Nat
  | [] => (s, 0)
  | c :: rest =>
    if (uart_send_char s c).2 then
      ((uart_send_string (uart_send_char s c).1 rest).1,
        (uart_send_string (uart_send_char s c).1 rest).2 + 1)
    else ((uart_send_char s c).1, 0)

/-- `ISR(USART3_DRE_vect)` from `src/labs/uart2/main.c` (identical in the
other labs): `uart_tx_isr_handler` dequeues from the tx queue; if a byte comes
back the ISR writes it to `TXDATAL` (the returned byte), otherwise it clears
`USART_DREIE_bm`, disarming the outbound-ready interrupt source. -/
def usart3_dre_isr (s : uart_state) : uart_state × Option Nat :=
  if (buffer_get BUFFER_SIZE s.tx).2.isSome then
    ({ tx := (buffer_get BUFFER_SIZE s.tx).1, dreie := s.dreie },
      (buffer_get BUFFER_SIZE s.tx).2)
  else
    ({ tx := (buffer_get BUFFER_SIZE s.tx).1, dreie := false }, none)

/-- Iterate the DRE interrupt `n` times, collecting the bytes put on the
wire (`none` = the call found the queue empty and disarmed). -/
def isr_drain (s : uart_state) : Nat → uart_state × List (Option Nat)
  | 0 => (s, [])
  | n + 1 =>
    ((isr_drain (usart3_dre_isr s).1 n).1,
      (usart3_dre_isr s).2 :: (isr_drain (usart3_dre_isr s).1 n).2)

theorem uart_send_string_spec (bs : List Nat) (s : uart_state)
    (h : buf_inv BUFFER_SIZE s.tx)
    (hroom : s.tx.count + bs.length ≤ BUFFER_SIZE) :
    buf_inv BUFFER_SIZE (uart_send_string s bs).1.tx ∧
      (uart_send_string s bs).2 = bs.length ∧
      contents BUFFER_SIZE (uart_send_string s bs).1.tx =
        contents BUFFER_SIZE s.tx ++ bs := by
  induction bs generalizing s with
  | nil => simpa [uart_send_string] using h
  | cons c rest ih =>
    have hlt : s.tx.count < BUFFER_SIZE := by
      simp only [List.length_cons] at hroom; omega
    have hok : (buffer_put BUFFER_SIZE s.tx c).2 = true := by
      simp [buffer_put, hlt]
    have hcnt : (buffer_put BUFFER_SIZE s.tx c).1.count = s.tx.count + 1 := by
      simp [buffer_put, hlt]
    have hinv1 : buf_inv BUFFER_SIZE (uart_send_char s c).1.tx :=
      buffer_put_inv _ _ _ h
    have hroom1 : (uart_send_char s c).1.tx.count + rest.length ≤
        BUFFER_SIZE := by
      show (buffer_put BUFFER_SIZE s.tx c).1.count + rest.length ≤ _
      rw [hcnt]
      simp only [List.length_cons] at hroom
      omega
    obtain ⟨hi, hn, hcts⟩ := ih (uart_send_char s c).1 hinv1 hroom1
    have hsc2 : (uart_send_char s c).2 = true := hok
    refine ⟨?_, ?_, ?_⟩
    · simp only [uart_send_string, hsc2, if_pos]
      exact hi
    · simp only [uart_send_string, hsc2, if_pos, hn, List.length_cons]
    · simp only [uart_send_string, hsc2, if_pos, hcts]
      show contents BUFFER_SIZE (buffer_put BUFFER_SIZE s.tx c).1 ++ rest = _
      rw [contents_put _ _ _ h hlt]
      simp

theorem isr_drain_spec (l : List Nat) (s : uart_state)
    (h : buf_inv BUFFER_SIZE s.tx) (hl : contents BUFFER_SIZE s.tx = l) :
    (isr_drain s (l.length + 1)).2 = l.map some ++ [none] ∧
      (isr_drain s (l.length + 1)).1.dreie = false := by
  induction l generalizing s with
  | nil =>
    have hcount : s.tx.count = 0 := by
      rw [← contents_length BUFFER_SIZE s.tx, hl]; rfl
    have hget : (buffer_get BUFFER_SIZE s.tx).2 = none := by
      simp [buffer_get, hcount]
    simp [isr_drain, usart3_dre_isr, hget]
  | cons b rest ih =>
    obtain ⟨hhd, htl⟩ := buffer_get_spec BUFFER_SIZE s.tx h
    rw [hl] at hhd htl
    simp only [List.head?_cons, List.tail_cons] at hhd htl
    have hsome : (buffer_get BUFFER_SIZE s.tx).2.isSome = true := by
      rw [hhd]; rfl
    have hinv1 : buf_inv BUFFER_SIZE (buffer_get BUFFER_SIZE s.tx).1 :=
      buffer_get_inv _ _ h
    have hstep : usart3_dre_isr s =
        ({ tx := (buffer_get BUFFER_SIZE s.tx).1, dreie := s.dreie },
          (buffer_get BUFFER_SIZE s.tx).2) := by
      simp [usart3_dre_isr, hsome]
    obtain ⟨ih2, ih1⟩ := ih
      { tx := (buffer_get BUFFER_SIZE s.tx).1, dreie := s.dreie } hinv1 htl
    constructor
    · show (usart3_dre_isr s).2 ::
          (isr_drain (usart3_dre_isr s).1 (rest.length + 1)).2 = _
      rw [hstep]
      dsimp only
      rw [hhd, ih2]
      simp
    · show (isr_drain (usart3_dre_isr s).1 (rest.length + 1)).1.dreie = false
      rw [hstep]
      dsimp only
      exact ih1

/-- C3.  Enqueue `k ≤ capacity` bytes through `uart_send_char` into an
initially empty transport: every send succeeds (`k` bytes queued), the next
`k` invocations of the DRE interrupt hand exactly those `k` bytes to the
hardware, once each, in FIFO order, and the `(k+1)`-th invocation returns no
byte and clears `USART_DREIE_bm`, disarming the outbound-ready interrupt
source. -/
theorem transport_send_then_drain (bs : List Nat)
    (h : bs.length ≤ BUFFER_SIZE) :
    (uart_send_string ⟨buf_init BUFFER_SIZE, false⟩ bs).2 = bs.length ∧
      (isr_drain (uart_send_string ⟨buf_init BUFFER_SIZE, false⟩ bs).1
          (bs.length + 1)).2 = bs.map some ++ [none] ∧
      (isr_drain (uart_send_string ⟨buf_init BUFFER_SIZE, false⟩ bs).1
          (bs.length + 1)).1.dreie = false := by
  have hN : 0 < BUFFER_SIZE := by decide
  have hinv0 : buf_inv BUFFER_SIZE
      ((⟨buf_init BUFFER_SIZE, false⟩ : uart_state).tx) :=
    buf_inv_init _ hN
  have hroom : (⟨buf_init BUFFER_SIZE, false⟩ : uart_state).tx.count +
      bs.length ≤ BUFFER_SIZE := by
    simpa [buf_init] using h
  obtain ⟨hi, hn, hcts⟩ := uart_send_string_spec bs _ hinv0 hroom
  rw [contents_init] at hcts
  simp only [List.nil_append] at hcts
  obtain ⟨hd2, hd1⟩ := isr_drain_spec bs _ hi hcts
  exact ⟨hn, hd2, hd1⟩

/-- Witness for C3: the three bytes `[10, 20, 30]`. -/
theorem transport_send_then_drain_witness :
    ([10, 20, 30] : List Nat).length ≤ BUFFER_SIZE ∧
      ((uart_send_string ⟨buf_init BUFFER_SIZE, false⟩ [10, 20, 30]).2 =
          ([10, 20, 30] : List Nat).length ∧
        (isr_drain
            (uart_send_string ⟨buf_init BUFFER_SIZE, false⟩ [10, 20, 30]).1
            (([10, 20, 30] : List Nat).length + 1)).2 =
          ([10, 20, 30] : List Nat).map some ++ [none] ∧
        (isr_drain
            (uart_send_string ⟨buf_init BUFFER_SIZE, false⟩ [10, 20, 30]).1
            (([10, 20, 30] : List Nat).length + 1)).1.dreie = false) :=
  ⟨by decide, transport_send_then_drain [10, 20, 30] (by decide)⟩

/-! ## Line assembler and command queue (`src/labs/AOS/include/ui.c`)

The console state groups the pieces of `ui.c` state that `collect_uart_input`
touches: the tx queue written by echoes and `aos_send`, the command queue
`cmd_line_buffer` (capacity `CMD_BUFFER_SIZE`), and the line buffer
`current_cmd_line[0 .. current_cmd_index)` (capacity `MAX_CMD_LENGTH`). -/

structure console_state where
  tx : circular_buffer_t
  cmd_q : circular_buffer_t
  line : List Nat
deriving DecidableEq

/-- `circular_buf_full`.  Modelled from the spec: `count == N` ⇔ full (the
implementation file `circularbuff.c` is not in the repository snapshot); the
inequality form coincides with it on every state satisfying `count ≤ N`. -/
def circular_buf_full (N : Nat) (q : circular_buffer_t) : Bool :=
  N ≤ q.count

/-- `circular_buf_empty`.  Modelled from the spec: `count == 0` ⇔ empty. -/
def circular_buf_empty (q : circular_buffer_t) : Bool :=
  q.count = 0

/-- `aos_send` from `src/labs/AOS/include/ui.c`: for each character it
busy-waits on `uart_send_char` until the character is queued.  Within the
main-loop context (no interrupt draining the queue between retries) a retry
after a failed put can never succeed, so the busy-wait either queues the
character first try or spins forever; the divergence is modelled as `none`.
Only the tx queue matters here, so the function acts on it directly. -/
def aos_send_chars (tx : circular_buffer_t) : List Nat → Option circular_buffer_t
  | [] => some tx
  | c :: rest =>
    if (buffer_put BUFFER_SIZE tx c).2 then
      aos_send_chars (buffer_put BUFFER_SIZE tx c).1 rest
    else none

/-- `queue_command_line`'s first loop: enqueue the line's characters one by
one, stopping early (silently truncating) as soon as the command queue is
full. -/
def queue_chars (q : circular_buffer_t) : List Nat → circular_buffer_t
  | [] => q
  | c :: rest =>
    if circular_buf_full CMD_BUFFER_SIZE q then q
    else queue_chars (buffer_put CMD_BUFFER_SIZE q c).1 rest

/-- `queue_command_line` from `src/labs/AOS/include/ui.c`: enqueue every
character of the completed line while room remains, then the NUL terminator
if room remains.  (The line holds only printable characters, all nonzero, so
the C loop's `*p` test traverses exactly the list.) -/
def queue_command_line (q : circular_buffer_t) (line : List Nat) :
    circular_buffer_t :=
  if circular_buf_full CMD_BUFFER_SIZE (queue_chars q line) then
    queue_chars q line
  else (buffer_put CMD_BUFFER_SIZE (queue_chars q line) 0).1

/-- The body of `collect_uart_input`'s while-loop for one received byte `ch`:
echo it (`uart_send_char`, result ignored), then CR/LF completes a non-empty
line (queue it, reset the line buffer, `aos_send("\r\n")`), backspace/DEL
shortens a non-empty line (`aos_send("\b \b")`), printable bytes append when
`current_cmd_index < MAX_CMD_LENGTH - 1`, and everything else is ignored.
`none` = the call blocked inside `aos_send`. -/
def aos_handle_byte (c : console_state) (ch : Nat) : Option console_state :=
  if ch = 10 ∨ ch = 13 then
    if 0 < c.line.length then
      match aos_send_chars (buffer_put BUFFER_SIZE c.tx ch).1 [13, 10] with
      | some tx2 => some ⟨tx2, queue_command_line c.cmd_q c.line, []⟩
      | none => none
    else some ⟨(buffer_put BUFFER_SIZE c.tx ch).1, c.cmd_q, c.line⟩
  else if ch = 8 ∨ ch = 127 then
    if 0 < c.line.length then
      match aos_send_chars (buffer_put BUFFER_SIZE c.tx ch).1 [8, 32, 8] with
      | some tx2 => some ⟨tx2, c.cmd_q, c.line.dropLast⟩
      | none => none
    else some ⟨(buffer_put BUFFER_SIZE c.tx ch).1, c.cmd_q, c.line⟩
  else if 32 ≤ ch ∧ ch ≤ 126 then
    if c.line.length < MAX_CMD_LENGTH - 1 then
      some ⟨(buffer_put BUFFER_SIZE c.tx ch).1, c.cmd_q, c.line ++ [ch]⟩
    else some ⟨(buffer_put BUFFER_SIZE c.tx ch).1, c.cmd_q, c.line⟩
  else some ⟨(buffer_put BUFFER_SIZE c.tx ch).1, c.cmd_q, c.line⟩

/-- The `while (uart_receive_char(&ch))` loop of `collect_uart_input`, with
explicit fuel.  Each successful `buffer_get` decrements `rx.count` by exactly
one, so with fuel `rx.count + 1` the loop always reaches its natural exit
(the failing get) before the fuel runs out; `collect_iter_fuel_irrelevant`
below proves the fuel choice immaterial. -/
def collect_iter : Nat → circular_buffer_t → console_state →
    Option (circular_buffer_t × console_state)
  | 0, _, _ => none
  | fuel + 1, rx, c =>
    if (buffer_get BUFFER_SIZE rx).2.isSome then
      match aos_handle_byte c ((buffer_get BUFFER_SIZE rx).2.getD 0) with
      | some c1 => collect_iter fuel (buffer_get BUFFER_SIZE rx).1 c1
      | none => none
    else some (rx, c)

/-- `collect_uart_input` from `src/labs/AOS/include/ui.c`, the line
assembler's per-iteration entry point. -/
def collect_uart_input (rx : circular_buffer_t) (c : console_state) :
    Option (circular_buffer_t × console_state) :=
  collect_iter (rx.count + 1) rx c

theorem buffer_get_count (rx : circular_buffer_t)
    (h : (buffer_get BUFFER_SIZE rx).2.isSome = true) :
    (buffer_get BUFFER_SIZE rx).1.count = rx.count - 1 ∧ 0 < rx.count := by
  by_cases hc : 0 < rx.count
  · simp [buffer_get, hc]
  · simp [buffer_get, hc] at h

/-- Any fuel exceeding the number of pending bytes gives the same result:
the loop exits through the failing `buffer_get`, never through fuel
exhaustion. -/
theorem collect_iter_fuel_irrelevant (fuel fuel' : Nat)
    (rx : circular_buffer_t) (c : console_state)
    (h : rx.count < fuel) (h' : rx.count < fuel') :
    collect_iter fuel rx c = collect_iter fuel' rx c := by
  induction fuel generalizing fuel' rx c with
  | zero => omega
  | succ n ih =>
    cases fuel' with
    | zero => omega
    | succ m =>
      simp only [collect_iter]
      by_cases hg : (buffer_get BUFFER_SIZE rx).2.isSome
      · simp only [hg, if_pos]
        obtain ⟨hc1, hc0⟩ := buffer_get_count rx hg
        cases haos : aos_handle_byte c ((buffer_get BUFFER_SIZE rx).2.getD 0)
          with
        | none => rfl
        | some c1 =>
          exact ih m (buffer_get BUFFER_SIZE rx).1 c1 (by omega) (by omega)
      · simp [hg]

/-- The ASCII byte sequence of a string of printable characters. -/
def ascii (s : String) : List Nat := s.data.map Char.toNat

/-- A queue seeded with the given bytes, oldest first. -/
def seed (N : Nat) (l : List Nat) : circular_buffer_t :=
  l.foldl (fun q c => (buffer_put N q c).1) (buf_init N)

theorem queue_chars_spec (l : List Nat) (q : circular_buffer_t)
    (h : buf_inv CMD_BUFFER_SIZE q)
    (hroom : q.count + l.length ≤ CMD_BUFFER_SIZE) :
    buf_inv CMD_BUFFER_SIZE (queue_chars q l) ∧
      (queue_chars q l).count = q.count + l.length ∧
      contents CMD_BUFFER_SIZE (queue_chars q l) =
        contents CMD_BUFFER_SIZE q ++ l := by
  induction l generalizing q with
  | nil => exact ⟨h, by simp [queue_chars], by simp [queue_chars]⟩
  | cons a rest ih =>
    have hlt : q.count < CMD_BUFFER_SIZE := by
      simp only [List.length_cons] at hroom; omega
    have hfull : circular_buf_full CMD_BUFFER_SIZE q = false := by
      simp [circular_buf_full]; omega
    have hcnt : (buffer_put CMD_BUFFER_SIZE q a).1.count = q.count + 1 := by
      simp [buffer_put, hlt]
    have hinv1 := buffer_put_inv CMD_BUFFER_SIZE q a h
    have hroom1 : (buffer_put CMD_BUFFER_SIZE q a).1.count + rest.length ≤
        CMD_BUFFER_SIZE := by
      rw [hcnt]; simp only [List.length_cons] at hroom; omega
    obtain ⟨i1, i2, i3⟩ := ih _ hinv1 hroom1
    have hstep : queue_chars q (a :: rest) =
        queue_chars (buffer_put CMD_BUFFER_SIZE q a).1 rest := by
      simp [queue_chars, hfull]
    refine ⟨hstep ▸ i1, ?_, ?_⟩
    · rw [hstep, i2, hcnt]; simp; omega
    · rw [hstep, i3, contents_put _ _ _ h hlt]; simp

theorem queue_command_line_spec (q : circular_buffer_t) (l : List Nat)
    (h : buf_inv CMD_BUFFER_SIZE q)
    (hroom : q.count + l.length + 1 ≤ CMD_BUFFER_SIZE) :
    buf_inv CMD_BUFFER_SIZE (queue_command_line q l) ∧
      (queue_command_line q l).count = q.count + l.length + 1 ∧
      contents CMD_BUFFER_SIZE (queue_command_line q l) =
        contents CMD_BUFFER_SIZE q ++ l ++ [0] := by
  obtain ⟨i1, i2, i3⟩ := queue_chars_spec l q h (by omega)
  have hlt : (queue_chars q l).count < CMD_BUFFER_SIZE := by rw [i2]; omega
  have hfull : circular_buf_full CMD_BUFFER_SIZE (queue_chars q l) = false := by
    simp [circular_buf_full]; omega
  have hstep : queue_command_line q l =
      (buffer_put CMD_BUFFER_SIZE (queue_chars q l) 0).1 := by
    simp [queue_command_line, hfull]
  refine ⟨hstep ▸ buffer_put_inv _ _ _ i1, ?_, ?_⟩
  · rw [hstep]
    simp only [buffer_put, if_pos hlt]
    show (queue_chars q l).count + 1 = q.count + l.length + 1
    omega
  · rw [hstep, contents_put _ _ _ i1 hlt, i3]

theorem aos_send_chars_some (l : List Nat) (tx : circular_buffer_t)
    (hroom : tx.count + l.length ≤ BUFFER_SIZE) :
    ∃ tx', aos_send_chars tx l = some tx' ∧
      tx'.count = tx.count + l.length := by
  induction l generalizing tx with
  | nil => exact ⟨tx, rfl, by simp⟩
  | cons a rest ih =>
    have hlt : tx.count < BUFFER_SIZE := by
      simp only [List.length_cons] at hroom; omega
    have hok : (buffer_put BUFFER_SIZE tx a).2 = true := by
      simp [buffer_put, hlt]
    have hcnt : (buffer_put BUFFER_SIZE tx a).1.count = tx.count + 1 := by
      simp [buffer_put, hlt]
    obtain ⟨tx', h1, h2⟩ := ih (buffer_put BUFFER_SIZE tx a).1
      (by rw [hcnt]; simp only [List.length_cons] at hroom; omega)
    refine ⟨tx', by simp [aos_send_chars, hok, h1], ?_⟩
    rw [h2, hcnt]; simp; omega

theorem echo_count (c : console_state) (ch : Nat) :
    (buffer_put BUFFER_SIZE c.tx ch).1.count ≤ c.tx.count + 1 := by
  by_cases hlt : c.tx.count < BUFFER_SIZE
  · simp [buffer_put, hlt]
  · simp [buffer_put, hlt]

theorem aos_handle_byte_some (c : console_state) (ch : Nat)
    (hroom : c.tx.count + 4 ≤ BUFFER_SIZE) :
    ∃ c1, aos_handle_byte c ch = some c1 ∧
      c1.tx.count ≤ c.tx.count + 4 := by
  have hecho := echo_count c ch
  unfold aos_handle_byte
  by_cases h1 : ch = 10 ∨ ch = 13
  · rw [if_pos h1]
    by_cases h2 : 0 < c.line.length
    · rw [if_pos h2]
      obtain ⟨tx2, hs, hc2⟩ := aos_send_chars_some [13, 10]
        (buffer_put BUFFER_SIZE c.tx ch).1 (by simp; omega)
      rw [hs]
      refine ⟨_, rfl, ?_⟩
      show tx2.count ≤ c.tx.count + 4
      simp only [List.length_cons, List.length_nil] at hc2
      omega
    · rw [if_neg h2]
      refine ⟨_, rfl, ?_⟩
      show (buffer_put BUFFER_SIZE c.tx ch).1.count ≤ c.tx.count + 4
      omega
  · rw [if_neg h1]
    by_cases h3 : ch = 8 ∨ ch = 127
    · rw [if_pos h3]
      by_cases h2 : 0 < c.line.length
      · rw [if_pos h2]
        obtain ⟨tx2, hs, hc2⟩ := aos_send_chars_some [8, 32, 8]
          (buffer_put BUFFER_SIZE c.tx ch).1 (by simp; omega)
        rw [hs]
        refine ⟨_, rfl, ?_⟩
        show tx2.count ≤ c.tx.count + 4
        simp only [List.length_cons, List.length_nil] at hc2
        omega
      · rw [if_neg h2]
        refine ⟨_, rfl, ?_⟩
        show (buffer_put BUFFER_SIZE c.tx ch).1.count ≤ c.tx.count + 4
        omega
    · rw [if_neg h3]
      by_cases h4 : 32 ≤ ch ∧ ch ≤ 126
      · rw [if_pos h4]
        by_cases h5 : c.line.length < MAX_CMD_LENGTH - 1
        · rw [if_pos h5]
          refine ⟨_, rfl, ?_⟩
          show (buffer_put BUFFER_SIZE c.tx ch).1.count ≤ c.tx.count + 4
          omega
        · rw [if_neg h5]
          refine ⟨_, rfl, ?_⟩
          show (buffer_put BUFFER_SIZE c.tx ch).1.count ≤ c.tx.count + 4
          omega
      · rw [if_neg h4]
        refine ⟨_, rfl, ?_⟩
        show (buffer_put BUFFER_SIZE c.tx ch).1.count ≤ c.tx.count + 4
        omega

theorem collect_iter_some (fuel : Nat) (rx : circular_buffer_t)
    (c : console_state) (hfuel : rx.count < fuel)
    (hroom : 4 * rx.count + c.tx.count ≤ BUFFER_SIZE) :
    (collect_iter fuel rx c).isSome = true := by
  induction fuel generalizing rx c with
  | zero => omega
  | succ n ih =>
    simp only [collect_iter]
    by_cases hg : (buffer_get BUFFER_SIZE rx).2.isSome
    · rw [if_pos hg]
      obtain ⟨hc1, hc0⟩ := buffer_get_count rx hg
      obtain ⟨c1, hs, hcnt⟩ := aos_handle_byte_some c
        ((buffer_get BUFFER_SIZE rx).2.getD 0) (by omega)
      rw [hs]
      exact ih _ _ (by omega) (by omega)
    · simp [hg]

theorem aos_handle_byte_line_length (c : console_state) (ch : Nat)
    (c1 : console_state) (hs : aos_handle_byte c ch = some c1)
    (hl : c.line.length ≤ MAX_CMD_LENGTH - 1) :
    c1.line.length ≤ MAX_CMD_LENGTH - 1 := by
  unfold aos_handle_byte at hs
  by_cases h1 : ch = 10 ∨ ch = 13
  · rw [if_pos h1] at hs
    by_cases h2 : 0 < c.line.length
    · rw [if_pos h2] at hs
      cases hsend : aos_send_chars (buffer_put BUFFER_SIZE c.tx ch).1
          [13, 10] with
      | none => rw [hsend] at hs; cases hs
      | some tx2 =>
        rw [hsend] at hs
        cases hs
        simp
    · rw [if_neg h2] at hs; cases hs; exact hl
  · rw [if_neg h1] at hs
    by_cases h3 : ch = 8 ∨ ch = 127
    · rw [if_pos h3] at hs
      by_cases h2 : 0 < c.line.length
      · rw [if_pos h2] at hs
        cases hsend : aos_send_chars (buffer_put BUFFER_SIZE c.tx ch).1
            [8, 32, 8] with
        | none => rw [hsend] at hs; cases hs
        | some tx2 =>
          rw [hsend] at hs
          cases hs
          simp only [List.length_dropLast]
          omega
      · rw [if_neg h2] at hs; cases hs; exact hl
    · rw [if_neg h3] at hs
      by_cases h4 : 32 ≤ ch ∧ ch ≤ 126
      · rw [if_pos h4] at hs
        by_cases h5 : c.line.length < MAX_CMD_LENGTH - 1
        · rw [if_pos h5] at hs; cases hs
          simp only [List.length_append, List.length_cons, List.length_nil]
          omega
        · rw [if_neg h5] at hs; cases hs; exact hl
      · rw [if_neg h4] at hs; cases hs; exact hl

/-- C8.  Consuming a printable byte (`0x20`–`0x7E`): the byte is echoed
through the transport (the tx queue becomes exactly the result of
`uart_send_char(ch)`, so when the tx queue has room the echo lands); with
room in the line buffer (`current_cmd_index < MAX_CMD_LENGTH - 1`) the byte
is appended; with the line buffer full it is silently dropped — the line
buffer is unchanged, the command queue is unchanged, and no error message is
emitted (the only transport activity is the echo itself). -/
theorem line_assembler_printable (c : console_state) (ch : Nat)
    (hp : 32 ≤ ch ∧ ch ≤ 126) :
    ∃ c1, aos_handle_byte c ch = some c1 ∧
      c1.tx = (buffer_put BUFFER_SIZE c.tx ch).1 ∧
      c1.cmd_q = c.cmd_q ∧
      (c.line.length < MAX_CMD_LENGTH - 1 → c1.line = c.line ++ [ch]) ∧
      (¬ c.line.length < MAX_CMD_LENGTH - 1 → c1.line = c.line) ∧
      (buf_inv BUFFER_SIZE c.tx → c.tx.count < BUFFER_SIZE →
        contents BUFFER_SIZE c1.tx =
          contents BUFFER_SIZE c.tx ++ [ch]) := by
  obtain ⟨hlo, hhi⟩ := hp
  have hcr : ¬ (ch = 10 ∨ ch = 13) := by omega
  have hbs : ¬ (ch = 8 ∨ ch = 127) := by omega
  unfold aos_handle_byte
  rw [if_neg hcr, if_neg hbs, if_pos (⟨hlo, hhi⟩ : 32 ≤ ch ∧ ch ≤ 126)]
  by_cases hr : c.line.length < MAX_CMD_LENGTH - 1
  · rw [if_pos hr]
    refine ⟨_, rfl, rfl, rfl, fun _ => rfl, fun hn => absurd hr hn,
      fun hinv hlt => ?_⟩
    show contents BUFFER_SIZE (buffer_put BUFFER_SIZE c.tx ch).1 = _
    exact contents_put _ _ _ hinv hlt
  · rw [if_neg hr]
    refine ⟨_, rfl, rfl, rfl, fun hcon => absurd hcon hr, fun _ => rfl,
      fun hinv hlt => ?_⟩
    show contents BUFFER_SIZE (buffer_put BUFFER_SIZE c.tx ch).1 = _
    exact contents_put _ _ _ hinv hlt

/-- Witness for C8: the byte `'A'` (65) into the fresh console. -/
theorem line_assembler_printable_witness :
    (32 ≤ 65 ∧ 65 ≤ 126) ∧
      (∃ c1, aos_handle_byte
            ⟨buf_init BUFFER_SIZE, buf_init CMD_BUFFER_SIZE, []⟩ 65 =
          some c1 ∧
        c1.tx = (buffer_put BUFFER_SIZE
          (⟨buf_init BUFFER_SIZE, buf_init CMD_BUFFER_SIZE, []⟩ :
            console_state).tx 65).1 ∧
        c1.cmd_q = (⟨buf_init BUFFER_SIZE, buf_init CMD_BUFFER_SIZE, []⟩ :
          console_state).cmd_q ∧
        ((⟨buf_init BUFFER_SIZE, buf_init CMD_BUFFER_SIZE, []⟩ :
            console_state).line.length < MAX_CMD_LENGTH - 1 →
          c1.line = (⟨buf_init BUFFER_SIZE, buf_init CMD_BUFFER_SIZE, []⟩ :
            console_state).line ++ [65]) ∧
        (¬ (⟨buf_init BUFFER_SIZE, buf_init CMD_BUFFER_SIZE, []⟩ :
            console_state).line.length < MAX_CMD_LENGTH - 1 →
          c1.line = (⟨buf_init BUFFER_SIZE, buf_init CMD_BUFFER_SIZE, []⟩ :
            console_state).line) ∧
        (buf_inv BUFFER_SIZE (⟨buf_init BUFFER_SIZE, buf_init CMD_BUFFER_SIZE,
            []⟩ : console_state).tx →
          (⟨buf_init BUFFER_SIZE, buf_init CMD_BUFFER_SIZE, []⟩ :
            console_state).tx.count < BUFFER_SIZE →
          contents BUFFER_SIZE c1.tx =
            contents BUFFER_SIZE (⟨buf_init BUFFER_SIZE, buf_init
              CMD_BUFFER_SIZE, []⟩ : console_state).tx ++ [65])) :=
  ⟨by decide,
    line_assembler_printable
      ⟨buf_init BUFFER_SIZE, buf_init CMD_BUFFER_SIZE, []⟩ 65 (by decide)⟩

/-- C9 counterexample: with the command queue already full, completing the
line `['A']` pushes nothing at all — the queue is left unchanged rather than
gaining the line's characters and the NUL terminator. -/
theorem queue_command_line_full_drop :
    queue_command_line ⟨List.replicate 128 7, 0, 0, 128⟩ [65] =
        ⟨List.replicate 128 7, 0, 0, 128⟩ ∧
      contents CMD_BUFFER_SIZE
          (queue_command_line ⟨List.replicate 128 7, 0, 0, 128⟩ [65]) ≠
        contents CMD_BUFFER_SIZE
            (⟨List.replicate 128 7, 0, 0, 128⟩ : circular_buffer_t) ++
          [65] ++ [0] := by decide

/-- C9 amended.  When the command queue has room for the characters plus the
terminator, `queue_command_line` pushes the whole line followed by the NUL
sentinel as one contiguous unit; otherwise characters are silently dropped
(see the counterexample).  The completed line always fits the line buffer:
any line the assembler can hold has at most `MAX_CMD_LENGTH - 1` characters,
so the pushed unit (characters plus NUL) never exceeds `MAX_CMD_LENGTH`. -/
theorem command_line_pushed_as_unit_amended (q : circular_buffer_t)
    (l : List Nat) (h : buf_inv CMD_BUFFER_SIZE q)
    (hroom : q.count + l.length + 1 ≤ CMD_BUFFER_SIZE) :
    contents CMD_BUFFER_SIZE (queue_command_line q l) =
        contents CMD_BUFFER_SIZE q ++ l ++ [0] ∧
      (l.length ≤ MAX_CMD_LENGTH - 1 → l.length + 1 ≤ MAX_CMD_LENGTH) ∧
      (∀ (c : console_state) (ch : Nat) (c1 : console_state),
        aos_handle_byte c ch = some c1 →
        c.line.length ≤ MAX_CMD_LENGTH - 1 →
        c1.line.length ≤ MAX_CMD_LENGTH - 1) := by
  refine ⟨(queue_command_line_spec q l h hroom).2.2, ?_,
    aos_handle_byte_line_length⟩
  simp only [MAX_CMD_LENGTH]
  omega

/-- Witness for the amended C9: the line `"HI"` into the fresh queue. -/
theorem command_line_pushed_as_unit_amended_witness :
    (buf_inv CMD_BUFFER_SIZE (buf_init CMD_BUFFER_SIZE) ∧
      (buf_init CMD_BUFFER_SIZE).count + ([72, 73] : List Nat).length + 1 ≤
        CMD_BUFFER_SIZE) ∧
      contents CMD_BUFFER_SIZE
          (queue_command_line (buf_init CMD_BUFFER_SIZE) [72, 73]) =
        contents CMD_BUFFER_SIZE (buf_init CMD_BUFFER_SIZE) ++
          [72, 73] ++ [0] :=
  ⟨⟨by decide, by decide⟩,
    (command_line_pushed_as_unit_amended (buf_init CMD_BUFFER_SIZE) [72, 73]
      (by decide) (by decide)).1⟩

/-- C4 counterexample: a CR consumed with a non-empty line buffer but a full
command queue resets the line buffer yet pushes nothing into the command
queue, so no command line equal to the buffered characters plus terminator
is produced. -/
theorem cr_on_full_command_queue_drops_line :
    Option.map (fun c1 => (contents CMD_BUFFER_SIZE c1.cmd_q, c1.line))
        (aos_handle_byte
          ⟨buf_init BUFFER_SIZE, ⟨List.replicate 128 7, 0, 0, 128⟩, [65]⟩
          13) =
      some (List.replicate 128 7, []) ∧
    (List.replicate 128 7 : List Nat) ≠
      List.replicate 128 7 ++ [65] ++ [0] := by decide

/-- C4 amended.  Consuming CR or LF with a non-empty line buffer queues
exactly one command line — the buffered characters plus the NUL terminator —
and resets the line buffer, **provided** the command queue has room for
them (characters that do not fit are silently dropped, per the
counterexample) and the transmit queue can take the `"\r\n"` echo.  With an
empty line buffer nothing is emitted.  In particular, feeding
`"SET 10:30:00\r"` into a fresh console produces exactly the command line
`"SET 10:30:00"` (NUL-terminated) and feeding `"\r"` alone produces zero
command lines. -/
theorem line_assembler_terminator_amended :
    (∀ (c : console_state) (ch : Nat), (ch = 10 ∨ ch = 13) →
      0 < c.line.length → buf_inv CMD_BUFFER_SIZE c.cmd_q →
      c.cmd_q.count + c.line.length + 1 ≤ CMD_BUFFER_SIZE →
      c.tx.count + 3 ≤ BUFFER_SIZE →
      ∃ c1, aos_handle_byte c ch = some c1 ∧
        contents CMD_BUFFER_SIZE c1.cmd_q =
          contents CMD_BUFFER_SIZE c.cmd_q ++ c.line ++ [0] ∧
        c1.line = []) ∧
    (∀ (c : console_state) (ch : Nat), (ch = 10 ∨ ch = 13) →
      c.line.length = 0 →
      aos_handle_byte c ch =
        some ⟨(buffer_put BUFFER_SIZE c.tx ch).1, c.cmd_q, c.line⟩) ∧
    Option.map (fun p => contents CMD_BUFFER_SIZE p.2.cmd_q)
        (collect_uart_input (seed BUFFER_SIZE (ascii "SET 10:30:00" ++ [13]))
          ⟨buf_init BUFFER_SIZE, buf_init CMD_BUFFER_SIZE, []⟩) =
      some (ascii "SET 10:30:00" ++ [0]) ∧
    Option.map (fun p => contents CMD_BUFFER_SIZE p.2.cmd_q)
        (collect_uart_input (seed BUFFER_SIZE [13])
          ⟨buf_init BUFFER_SIZE, buf_init CMD_BUFFER_SIZE, []⟩) =
      some [] := by
  refine ⟨?_, ?_, by decide, by decide⟩
  · intro c ch hcr hline hinv hroomq hroomtx
    have hecho := echo_count c ch
    unfold aos_handle_byte
    rw [if_pos hcr, if_pos hline]
    obtain ⟨tx2, hs, _⟩ := aos_send_chars_some [13, 10]
      (buffer_put BUFFER_SIZE c.tx ch).1 (by simp; omega)
    rw [hs]
    exact ⟨_, rfl, (queue_command_line_spec c.cmd_q c.line hinv hroomq).2.2,
      rfl⟩
  · intro c ch hcr h0
    unfold aos_handle_byte
    rw [if_pos hcr, if_neg (by omega : ¬ 0 < c.line.length)]

/-- Witness for the amended C4: CR after the single buffered byte `'H'`. -/
theorem line_assembler_terminator_amended_witness :
    (((13 : Nat) = 10 ∨ (13 : Nat) = 13) ∧
      0 < ([72] : List Nat).length ∧
      buf_inv CMD_BUFFER_SIZE (buf_init CMD_BUFFER_SIZE) ∧
      (buf_init CMD_BUFFER_SIZE).count + ([72] : List Nat).length + 1 ≤
        CMD_BUFFER_SIZE ∧
      (buf_init BUFFER_SIZE).count + 3 ≤ BUFFER_SIZE) ∧
      (∃ c1, aos_handle_byte
            ⟨buf_init BUFFER_SIZE, buf_init CMD_BUFFER_SIZE, [72]⟩ 13 =
          some c1 ∧
        contents CMD_BUFFER_SIZE c1.cmd_q =
          contents CMD_BUFFER_SIZE (buf_init CMD_BUFFER_SIZE) ++ [72] ++ [0] ∧
        c1.line = []) :=
  ⟨⟨Or.inr rfl, by decide, by decide, by decide, by decide⟩,
    line_assembler_terminator_amended.1
      ⟨buf_init BUFFER_SIZE, buf_init CMD_BUFFER_SIZE, [72]⟩ 13 (Or.inr rfl)
      (by decide) (by decide) (by decide) (by decide)⟩

/-- C5 counterexample: with the transmit queue completely full and a pending
CR completing the non-empty line `['A']`, `collect_uart_input` reaches the
busy-wait inside `aos_send("\r\n")`, which can never succeed from the
main-loop context: the call blocks (modelled as `none`). -/
theorem collect_input_blocks_on_full_tx :
    collect_uart_input (buffer_put BUFFER_SIZE (buf_init BUFFER_SIZE) 13).1
        ⟨⟨List.replicate 64 0, 0, 0, 64⟩, buf_init CMD_BUFFER_SIZE, [65]⟩ =
      none := by decide

/-- C5 amended.  `collect_uart_input` returns immediately having done nothing
when no input byte is pending, and it terminates without blocking whenever
the transmit queue keeps at least four free slots per pending input byte
(one echo plus at most a three-byte control string each); with a full
transmit queue it can block forever inside `aos_send` (see the
counterexample). -/
theorem collect_input_nonblocking_amended :
    (∀ (rx : circular_buffer_t) (c : console_state), rx.count = 0 →
      collect_uart_input rx c = some (rx, c)) ∧
    (∀ (rx : circular_buffer_t) (c : console_state),
      4 * rx.count + c.tx.count ≤ BUFFER_SIZE →
      (collect_uart_input rx c).isSome = true) := by
  constructor
  · intro rx c h0
    have hg : (buffer_get BUFFER_SIZE rx).2.isSome = false := by
      simp [buffer_get, h0]
    unfold collect_uart_input
    rw [h0]
    simp [collect_iter, hg]
  · intro rx c hroom
    exact collect_iter_some _ _ _ (Nat.lt_succ_self _) hroom

/-- Witness for the amended C5: the empty receive queue does nothing, and one
pending byte with an empty transmit queue is processed to completion. -/
theorem collect_input_nonblocking_amended_witness :
    ((buf_init BUFFER_SIZE).count = 0 ∧
      collect_uart_input (buf_init BUFFER_SIZE)
          ⟨buf_init BUFFER_SIZE, buf_init CMD_BUFFER_SIZE, []⟩ =
        some (buf_init BUFFER_SIZE,
          ⟨buf_init BUFFER_SIZE, buf_init CMD_BUFFER_SIZE, []⟩)) ∧
      (4 * (seed BUFFER_SIZE [72]).count +
          (⟨buf_init BUFFER_SIZE, buf_init CMD_BUFFER_SIZE, []⟩ :
            console_state).tx.count ≤ BUFFER_SIZE ∧
        (collect_uart_input (seed BUFFER_SIZE [72])
            ⟨buf_init BUFFER_SIZE, buf_init CMD_BUFFER_SIZE, []⟩).isSome =
          true) :=
  ⟨⟨rfl, collect_input_nonblocking_amended.1 (buf_init BUFFER_SIZE)
      ⟨buf_init BUFFER_SIZE, buf_init CMD_BUFFER_SIZE, []⟩ rfl⟩,
    ⟨by decide, collect_input_nonblocking_amended.2 (seed BUFFER_SIZE [72])
      ⟨buf_init BUFFER_SIZE, buf_init CMD_BUFFER_SIZE, []⟩ (by decide)⟩⟩

/-! ## Command dispatcher (`execute_next_command` in
`src/labs/AOS/include/ui.c`) -/

/-- The whitespace class that `sscanf`'s `%s` and a format-string blank skip
(space, tab, LF, VT, FF, CR).  Line-buffer bytes are printable, so in
practice only the space matters. -/
def isWsByte (c : Nat) : Bool := c = 32 ∨ c = 9 ∨ c = 10 ∨ c = 11 ∨
  c = 12 ∨ c = 13

/-- The trailing-whitespace trim `execute_next_command` applies to the
parameter string (spaces and tabs only, as in the C loop). -/
def trimTrailing (l : List Nat) : List Nat :=
  (l.reverse.dropWhile (fun c => c = 32 || c = 9)).reverse

/-- ASCII-only uppercase normalisation, `'a'..'z' ↦ 'A'..'Z'`, exactly the
loop in `execute_next_command`. -/
def toUpperByte (c : Nat) : Nat := if 97 ≤ c ∧ c ≤ 122 then c - 32 else c

/-- `sscanf(cmd_line, "%15s %63[^\r\n]", cmd_name, params)` plus the
leading/trailing trim: skip leading whitespace; a wholly blank line parses to
nothing (`num_parsed < 1`); otherwise the name is the first run of up to 15
non-whitespace bytes, and the parameter string is the rest after whitespace
(up to 63 bytes, trailing blanks trimmed), or nothing if only whitespace
remains (`num_parsed == 1`, so the handler receives `NULL`). -/
def parse_cmd_line (line : List Nat) : Option (List Nat × Option (List Nat)) :=
  let afterWs := line.dropWhile isWsByte
  if afterWs.isEmpty then none
  else
    let name := (afterWs.takeWhile (fun c => ! isWsByte c)).take 15
    let rest := afterWs.drop name.length
    let restWs := rest.dropWhile isWsByte
    if restWs.isEmpty then some (name, none)
    else some (name, some (trimTrailing (restWs.take 63)))

/-- The `commands[]` table names of `src/labs/AOS/include/ui.c`, in order. -/
def command_names : List (List Nat) :=
  [ascii "HELP", ascii "SYSINFO", ascii "RESET", ascii "REGS", ascii "READ",
    ascii "WRITE", ascii "DUMP", ascii "PEEK", ascii "POKE", ascii "UART",
    ascii "GPIO", ascii "TIMER", ascii "SET", ascii "ALARM", ascii "SHOW",
    ascii "STOP"]

/-- Observable outcome of one `execute_next_command` call: nothing dequeued
(or an empty/unparseable line), exactly one handler invocation (the C loop
breaks after the first match) with the parameter string passed to it
(`none` = the C `NULL`), or the "Unknown command" message. -/
inductive dispatch_result where
  | no_command
  | handled (name : List Nat) (params : Option (List Nat))
  | unknown (name : List Nat)
deriving DecidableEq

/-- The extraction loop of `execute_next_command`: read characters from the
command queue until the NUL terminator, the queue runs dry, or
`MAX_CMD_LENGTH - 1` characters have been stored. -/
def read_cmd_line : Nat → circular_buffer_t → circular_buffer_t × List Nat
  | 0, q => (q, [])
  | fuel + 1, q =>
    if (buffer_get CMD_BUFFER_SIZE q).2.isSome then
      if (buffer_get CMD_BUFFER_SIZE q).2.getD 0 = 0 then
        ((buffer_get CMD_BUFFER_SIZE q).1, [])
      else
        ((read_cmd_line fuel (buffer_get CMD_BUFFER_SIZE q).1).1,
          (buffer_get CMD_BUFFER_SIZE q).2.getD 0 ::
            (read_cmd_line fuel (buffer_get CMD_BUFFER_SIZE q).1).2)
    else (q, [])

/-- `execute_next_command` from `src/labs/AOS/include/ui.c`: bail out on an
empty command queue, extract one NUL-terminated line, parse it into a name
and an optional parameter string, uppercase the name, and look it up in the
static command table by exact match. -/
def execute_next_command (q : circular_buffer_t) :
    circular_buffer_t × dispatch_result :=
  if circular_buf_empty q then (q, dispatch_result.no_command)
  else
    let r := read_cmd_line (MAX_CMD_LENGTH - 1) q
    if r.2.length = 0 then (r.1, dispatch_result.no_command)
    else
      match parse_cmd_line r.2 with
      | none => (r.1, dispatch_result.no_command)
      | some (nm, ps) =>
        let uname := nm.map toUpperByte
        if command_names.contains uname then
          (r.1, dispatch_result.handled uname ps)
        else (r.1, dispatch_result.unknown uname)

/-- C6.  With the command table of `ui.c` (which registers `"HELP"`),
dispatching the queued line `"help"` invokes the HELP handler exactly once
with no parameter — the name is uppercased before the exact table match —
and dispatching `"bogus"` invokes no handler and produces the
"Unknown command: BOGUS" message. -/
theorem dispatcher_case_insensitive_and_unknown :
    (execute_next_command (seed CMD_BUFFER_SIZE (ascii "help" ++ [0]))).2 =
        dispatch_result.handled (ascii "HELP") none ∧
      (execute_next_command (seed CMD_BUFFER_SIZE (ascii "bogus" ++ [0]))).2 =
        dispatch_result.unknown (ascii "BOGUS") := by decide

/-! ## Null-parameter handling of the command handlers (C10)

`execute_next_command` invokes `cmd->handler((num_parsed > 1) ? params :
NULL)`, so a bare command name is dispatched with a `NULL` parameter.
`cmd_regs` and `cmd_read` immediately call `strlen(params)`;
`strlen(NULL)` reads through the null pointer.  `cmd_dump` passes the
`NULL` straight to `strtok`, which then continues from the C library's
saved pointer from a *previous* tokenisation instead of the argument
(itself null on the first call).  Each handler model therefore maps the
`none` parameter to an explicit bad-dereference outcome, and a present
parameter to the handler's documented decision structure. -/

/-- `strlen(params)` as called with a possibly-`NULL` pointer: `none` marks
the read through the null pointer. -/
def strlen_opt : Option (List Nat) → Option Nat
  | none => none
  | some l => some l.length

/-- Hex digit value for `strtol(..., 16)`. -/
def hexDigitVal (c : Nat) : Option Nat :=
  if 48 ≤ c ∧ c ≤ 57 then some (c - 48)
  else if 97 ≤ c ∧ c ≤ 102 then some (c - 87)
  else if 65 ≤ c ∧ c ≤ 70 then some (c - 55)
  else none

/-- `strtol(s, NULL, 16)` on the byte strings these handlers receive:
skip whitespace, optional `0x`/`0X` prefix, then hex digits. -/
def strtol16 (l : List Nat) : Nat :=
  let l1 := l.dropWhile isWsByte
  let l2 := match l1 with
    | 48 :: 120 :: rest => rest
    | 48 :: 88 :: rest => rest
    | _ => l1
  (l2.takeWhile (fun c => (hexDigitVal c).isSome)).foldl
    (fun acc c => acc * 16 + (hexDigitVal c).getD 0) 0

/-- `strtol(s, NULL, 10)`: skip whitespace, then decimal digits. -/
def strtol10 (l : List Nat) : Nat :=
  ((l.dropWhile isWsByte).takeWhile (fun c => 48 ≤ c && c ≤ 57)).foldl
    (fun acc c => acc * 10 + (c - 48)) 0

/-- Outcome of `cmd_regs`. -/
inductive regs_result where
  | null_deref
  | usage_list
  | dump (name : List Nat)
  | unknown_peripheral
deriving DecidableEq

/-- The `peripherals[]` table names. -/
def peripheral_names : List (List Nat) :=
  [ascii "RTC", ascii "USART3", ascii "PORTD", ascii "TCA0"]

/-- `cmd_regs` from `src/labs/AOS/include/ui.c`: `strlen(params)` first (a
null-pointer read when the dispatcher passed `NULL`); empty ⇒ usage list;
otherwise the first 15 bytes are uppercased and matched against the
peripheral table. -/
def cmd_regs (params : Option (List Nat)) : regs_result :=
  match strlen_opt params with
  | none => regs_result.null_deref
  | some 0 => regs_result.usage_list
  | some _ =>
    let pname := ((params.getD []).take 15).map toUpperByte
    if peripheral_names.contains pname then regs_result.dump pname
    else regs_result.unknown_peripheral

/-- Outcome of `cmd_read`. -/
inductive read_result where
  | null_deref
  | usage
  | read_addr (a : Nat)
deriving DecidableEq

/-- `cmd_read` from `src/labs/AOS/include/ui.c`: `strlen(params)` first (a
null-pointer read when passed `NULL`); empty ⇒ usage; otherwise read memory
at `(uint16_t)strtol(params, NULL, 16)`. -/
def cmd_read (params : Option (List Nat)) : read_result :=
  match strlen_opt params with
  | none => read_result.null_deref
  | some 0 => read_result.usage
  | some _ => read_result.read_addr (strtol16 (params.getD []) % 65536)

/-- Outcome of `cmd_dump`. -/
inductive dump_result where
  | strtok_stale_state
  | usage
  | dump (start len : Nat)
deriving DecidableEq

/-- `cmd_dump` from `src/labs/AOS/include/ui.c`: `strtok((char *)params,
" ")` first — with a `NULL` argument `strtok` resumes from the C library's
saved pointer rather than the parameter (null on the program's first
tokenisation), modelled as `strtok_stale_state`; otherwise split on spaces,
parse the start address in hex and the optional length in decimal
(default 16, clamped to 64). -/
def cmd_dump (params : Option (List Nat)) : dump_result :=
  match params with
  | none => dump_result.strtok_stale_state
  | some l =>
    let t1 := (l.dropWhile (fun c => c = 32)).takeWhile (fun c => ! c = 32)
    if t1.isEmpty then dump_result.usage
    else
      let rest := (l.dropWhile (fun c => c = 32)).drop t1.length
      let t2 := (rest.dropWhile (fun c => c = 32)).takeWhile
        (fun c => ! c = 32)
      let start := strtol16 t1 % 65536
      let len0 := if t2.isEmpty then 16 else strtol10 t2 % 256
      dump_result.dump start (if len0 > 64 then 64 else len0)

/-- C10.  Dispatching the bare line `"REGS"` passes `none` (the C `NULL`)
for the parameter, and the REGS and READ handlers immediately read through
that null pointer (`strlen(NULL)`), while DUMP hands it to `strtok`, which
reads the library's stale saved pointer instead; with a real parameter the
handlers behave normally.  This refutes the claim that every registered
handler tolerates the null parameter. -/
theorem null_parameter_dispatch_and_derefs :
    (execute_next_command (seed CMD_BUFFER_SIZE (ascii "REGS" ++ [0]))).2 =
        dispatch_result.handled (ascii "REGS") none ∧
      cmd_regs none = regs_result.null_deref ∧
      cmd_read none = read_result.null_deref ∧
      cmd_dump none = dump_result.strtok_stale_state ∧
      cmd_regs (some (ascii "rtc")) = regs_result.dump (ascii "RTC") ∧
      cmd_read (some (ascii "0x1000")) = read_result.read_addr 4096 := by
  decide

/-! ## Interactive menu state machine (`prompt_and_handle_menu` in
`src/labs/uart2/main.c`) -/

/-- The `static enum` of `prompt_and_handle_menu`. -/
inductive menu_mode where
  | idle
  | wait_choice
  | wait_freq
  | wait_pos
deriving DecidableEq

/-- The function's static state: the mode, `input_buffer[0..input_index)`,
the `prompt_shown` flag, and the two application values `*freq_hz` and
`*pos` it mutates. -/
structure menu_state where
  mode : menu_mode
  input : List Nat
  prompt_shown : Bool
  freq_hz : Nat
  pos : Nat
deriving DecidableEq

/-- The `printf` outputs of `prompt_and_handle_menu`, in emission order. -/
inductive menu_event where
  | prompt_main
  | echo (c : Nat)
  | prompt_freq
  | prompt_pos
  | err_choice (c : Nat)
  | clamp_notice (v : Nat)
  | ok_freq (v : Nat)
  | ok_pos (v : Nat)
deriving DecidableEq

/-- The value of a leading run of decimal digits. -/
def decDigits (l : List Nat) : Nat :=
  (l.takeWhile (fun c => 48 ≤ c && c ≤ 57)).foldl
    (fun acc c => acc * 10 + (c - 48)) 0

/-- `atoi(input_buffer)`: skip whitespace, optional sign, decimal digits
(the menu's buffered values are small, so C `int` overflow is not in
play). -/
def atoi_bytes (l : List Nat) : Int :=
  match l.dropWhile isWsByte with
  | 45 :: rest => - (decDigits rest : Int)
  | 43 :: rest => (decDigits rest : Int)
  | l1 => (decDigits l1 : Int)

/-- Conversion of the `atoi` result to the AVR's 16-bit `unsigned int`
(`unsigned int newf = atoi(...)`). -/
def to_u16 (i : Int) : Nat := (i % 65536).toNat

/-- `clamp_u8` from `src/labs/uart2/main.c`. -/
def clamp_u8 (v lo hi : Nat) : Nat :=
  if v < lo then lo
  else if v > hi then hi
  else v

/-- The `switch (state)` body of `prompt_and_handle_menu` for one received
(and already echoed) byte `ch`.  Note the call sites clamp the **truncated**
value: `clamp_u8((uint8_t)newf, lo, hi)` truncates `newf` to 8 bits before
clamping, and the clamping notice fires when the clamped byte differs from
the full 16-bit `newf`. -/
def menu_step (s : menu_state) (ch : Nat) : menu_state × List menu_event :=
  match s.mode with
  | menu_mode.idle =>
    ({ mode := menu_mode.wait_choice, input := [ch], prompt_shown := false,
       freq_hz := s.freq_hz, pos := s.pos }, [])
  | menu_mode.wait_choice =>
    if ch = 10 ∨ ch = 13 then
      if s.input.length = 0 then (s, [])
      else if s.input.headD 0 = 70 ∨ s.input.headD 0 = 102 then
        ({ s with mode := menu_mode.wait_freq, input := [] },
          [menu_event.prompt_freq])
      else if s.input.headD 0 = 80 ∨ s.input.headD 0 = 112 then
        ({ s with mode := menu_mode.wait_pos, input := [] },
          [menu_event.prompt_pos])
      else
        ({ s with mode := menu_mode.idle, prompt_shown := false },
          [menu_event.err_choice (s.input.headD 0)])
    else if s.input.length < 63 then ({ s with input := s.input ++ [ch] }, [])
    else (s, [])
  | menu_mode.wait_freq =>
    if ch = 10 ∨ ch = 13 then
      if s.input.length = 0 then (s, [])
      else
        ({ s with
            mode := menu_mode.idle
            prompt_shown := false
            freq_hz := clamp_u8 (to_u16 (atoi_bytes s.input) % 256) 1 10 },
          (if clamp_u8 (to_u16 (atoi_bytes s.input) % 256) 1 10 ≠
              to_u16 (atoi_bytes s.input) then
            [menu_event.clamp_notice
              (clamp_u8 (to_u16 (atoi_bytes s.input) % 256) 1 10)]
          else []) ++
            [menu_event.ok_freq
              (clamp_u8 (to_u16 (atoi_bytes s.input) % 256) 1 10)])
    else if s.input.length < 63 then ({ s with input := s.input ++ [ch] }, [])
    else (s, [])
  | menu_mode.wait_pos =>
    if ch = 10 ∨ ch = 13 then
      if s.input.length = 0 then (s, [])
      else
        ({ s with
            mode := menu_mode.idle
            prompt_shown := false
            pos := clamp_u8 (to_u16 (atoi_bytes s.input) % 256) 0 7 },
          (if clamp_u8 (to_u16 (atoi_bytes s.input) % 256) 0 7 ≠
              to_u16 (atoi_bytes s.input) then
            [menu_event.clamp_notice
              (clamp_u8 (to_u16 (atoi_bytes s.input) % 256) 0 7)]
          else []) ++
            [menu_event.ok_pos
              (clamp_u8 (to_u16 (atoi_bytes s.input) % 256) 0 7)])
    else if s.input.length < 63 then ({ s with input := s.input ++ [ch] }, [])
    else (s, [])

/-- `prompt_and_handle_menu` from `src/labs/uart2/main.c`: show the main
prompt on an idle entry when not already shown, try to read one byte
non-blockingly (`uart_receive_char`), return immediately if none, otherwise
echo it and run the state switch. -/
def prompt_and_handle_menu (rx : circular_buffer_t) (s : menu_state) :
    circular_buffer_t × menu_state × List menu_event :=
  let pEv : List menu_event :=
    if s.mode = menu_mode.idle ∧ s.prompt_shown = false then
      [menu_event.prompt_main]
    else []
  let s0 : menu_state :=
    if s.mode = menu_mode.idle ∧ s.prompt_shown = false then
      { s with prompt_shown := true }
    else s
  if (buffer_get BUFFER_SIZE rx).2.isSome then
    ((buffer_get BUFFER_SIZE rx).1,
      (menu_step s0 ((buffer_get BUFFER_SIZE rx).2.getD 0)).1,
      pEv ++ [menu_event.echo ((buffer_get BUFFER_SIZE rx).2.getD 0)] ++
        (menu_step s0 ((buffer_get BUFFER_SIZE rx).2.getD 0)).2)
  else ((buffer_get BUFFER_SIZE rx).1, s0, pEv)

/-- C7 counterexample: awaiting the frequency with buffered text `"256"`
(an entered value above the documented maximum 10), a pending CR applies
frequency **1**, not the maximum: `(uint8_t)256 = 0` is computed **before**
clamping, and `clamp_u8(0, 1, 10) = 1`.  A clamping notice is still
reported, and the machine returns to `Idle`. -/
theorem wizard_truncates_before_clamping :
    to_u16 (atoi_bytes (ascii "256")) = 256 ∧
      10 < 256 ∧
      (prompt_and_handle_menu (seed BUFFER_SIZE [13])
          ⟨menu_mode.wait_freq, ascii "256", true, 2, 0⟩).2.1.freq_hz = 1 ∧
      (prompt_and_handle_menu (seed BUFFER_SIZE [13])
          ⟨menu_mode.wait_freq, ascii "256", true, 2, 0⟩).2.1.freq_hz ≠ 10 ∧
      (prompt_and_handle_menu (seed BUFFER_SIZE [13])
          ⟨menu_mode.wait_freq, ascii "256", true, 2, 0⟩).2.1.mode =
        menu_mode.idle := by decide

/-- C7 amended.  In an awaiting-field-value state, CR/LF with a non-empty
scratch buffer parses the text as an integer, **truncates it to 8 bits**,
clamps the truncated byte into the field's range (frequency 1–10, position
0–7), applies it, reports a clamping notice exactly when the applied value
differs from the parsed value, and returns to `Idle`; the applied value
equals the field's documented maximum only for entered values between the
maximum and 255 — beyond 255 the truncation wraps first (see the
counterexample). -/
theorem wizard_field_value_amended (s : menu_state) (ch : Nat)
    (hcr : ch = 10 ∨ ch = 13) (hne : 0 < s.input.length) :
    (s.mode = menu_mode.wait_freq →
      (menu_step s ch).1.freq_hz =
          clamp_u8 (to_u16 (atoi_bytes s.input) % 256) 1 10 ∧
        (menu_step s ch).1.mode = menu_mode.idle ∧
        (menu_event.clamp_notice (menu_step s ch).1.freq_hz ∈
            (menu_step s ch).2 ↔
          clamp_u8 (to_u16 (atoi_bytes s.input) % 256) 1 10 ≠
            to_u16 (atoi_bytes s.input)) ∧
        (10 < to_u16 (atoi_bytes s.input) →
          to_u16 (atoi_bytes s.input) ≤ 255 →
          (menu_step s ch).1.freq_hz = 10 ∧
            menu_event.clamp_notice (menu_step s ch).1.freq_hz ∈
              (menu_step s ch).2)) ∧
    (s.mode = menu_mode.wait_pos →
      (menu_step s ch).1.pos =
          clamp_u8 (to_u16 (atoi_bytes s.input) % 256) 0 7 ∧
        (menu_step s ch).1.mode = menu_mode.idle ∧
        (menu_event.clamp_notice (menu_step s ch).1.pos ∈
            (menu_step s ch).2 ↔
          clamp_u8 (to_u16 (atoi_bytes s.input) % 256) 0 7 ≠
            to_u16 (atoi_bytes s.input)) ∧
        (7 < to_u16 (atoi_bytes s.input) →
          to_u16 (atoi_bytes s.input) ≤ 255 →
          (menu_step s ch).1.pos = 7 ∧
            menu_event.clamp_notice (menu_step s ch).1.pos ∈
              (menu_step s ch).2)) := by
  obtain ⟨mode, input, pr, f, p⟩ := s
  dsimp only at hne ⊢
  have h0 : ¬ input.length = 0 := by omega
  constructor
  · intro hmode
    cases hmode
    simp only [menu_step]
    rw [if_pos hcr, if_neg h0]
    dsimp only
    refine ⟨rfl, rfl, ?_, ?_⟩
    · by_cases hn : clamp_u8 (to_u16 (atoi_bytes input) % 256) 1 10 ≠
          to_u16 (atoi_bytes input)
      · simp [hn]
      · simp [hn]
    · intro h10 h255
      have hmod : to_u16 (atoi_bytes input) % 256 = to_u16 (atoi_bytes input) :=
        Nat.mod_eq_of_lt (by omega)
      have hclamp : clamp_u8 (to_u16 (atoi_bytes input) % 256) 1 10 = 10 := by
        rw [hmod]
        unfold clamp_u8
        rw [if_neg (by omega), if_pos (by omega)]
      refine ⟨hclamp, ?_⟩
      have hn : clamp_u8 (to_u16 (atoi_bytes input) % 256) 1 10 ≠
          to_u16 (atoi_bytes input) := by
        rw [hclamp]; omega
      simp [hn]
  · intro hmode
    cases hmode
    simp only [menu_step]
    rw [if_pos hcr, if_neg h0]
    dsimp only
    refine ⟨rfl, rfl, ?_, ?_⟩
    · by_cases hn : clamp_u8 (to_u16 (atoi_bytes input) % 256) 0 7 ≠
          to_u16 (atoi_bytes input)
      · simp [hn]
      · simp [hn]
    · intro h7 h255
      have hmod : to_u16 (atoi_bytes input) % 256 = to_u16 (atoi_bytes input) :=
        Nat.mod_eq_of_lt (by omega)
      have hclamp : clamp_u8 (to_u16 (atoi_bytes input) % 256) 0 7 = 7 := by
        rw [hmod]
        unfold clamp_u8
        rw [if_neg (by omega), if_pos (by omega)]
      refine ⟨hclamp, ?_⟩
      have hn : clamp_u8 (to_u16 (atoi_bytes input) % 256) 0 7 ≠
          to_u16 (atoi_bytes input) := by
        rw [hclamp]; omega
      simp [hn]

/-- Witness for the amended C7: the buffered text `"20"` awaiting the
frequency, completed by CR — the applied value is the clamped maximum 10
with a clamping notice. -/
theorem wizard_field_value_amended_witness :
    (((13 : Nat) = 10 ∨ (13 : Nat) = 13) ∧
      0 < (ascii "20").length) ∧
      ((⟨menu_mode.wait_freq, ascii "20", true, 2, 0⟩ : menu_state).mode =
          menu_mode.wait_freq →
        (menu_step ⟨menu_mode.wait_freq, ascii "20", true, 2, 0⟩ 13).1.freq_hz
            = clamp_u8 (to_u16 (atoi_bytes (ascii "20")) % 256) 1 10 ∧
          (menu_step ⟨menu_mode.wait_freq, ascii "20", true, 2, 0⟩
              13).1.mode = menu_mode.idle ∧
          (menu_event.clamp_notice
              (menu_step ⟨menu_mode.wait_freq, ascii "20", true, 2, 0⟩
                13).1.freq_hz ∈
              (menu_step ⟨menu_mode.wait_freq, ascii "20", true, 2, 0⟩
                13).2 ↔
            clamp_u8 (to_u16 (atoi_bytes (ascii "20")) % 256) 1 10 ≠
              to_u16 (atoi_bytes (ascii "20"))) ∧
          (10 < to_u16 (atoi_bytes (ascii "20")) →
            to_u16 (atoi_bytes (ascii "20")) ≤ 255 →
            (menu_step ⟨menu_mode.wait_freq, ascii "20", true, 2, 0⟩
                13).1.freq_hz = 10 ∧
              menu_event.clamp_notice
                  (menu_step ⟨menu_mode.wait_freq, ascii "20", true, 2, 0⟩
                    13).1.freq_hz ∈
                (menu_step ⟨menu_mode.wait_freq, ascii "20", true, 2, 0⟩
                  13).2)) :=
  ⟨⟨Or.inr rfl, by decide⟩,
    (wizard_field_value_amended
      ⟨menu_mode.wait_freq, ascii "20", true, 2, 0⟩ 13 (Or.inr rfl)
      (by decide)).1⟩

end ECE3411
